import Mathlib

/-!
Verification of the duplicate-detection and post-composition core of the
media-ge-tw-bot repository (georgia_news_strict.py, georgia_news_improved.py,
georgia_news_fixed.py).

Python strings are modelled as `List Char` (sequences of code points), string
indices as `Int` with the Python convention that a failed `rfind` yields `-1`,
and machine timestamps as `Nat` seconds.  External collaborators (HTTP fetch,
the OpenRouter summarizer, the md5 digest from hashlib, the Twitter endpoint,
`random.choice`) are fields of an environment record, exactly as the spec
designates them external.  All other logic is translated from the source.
-/

/-- Python strings as lists of code points. -/
abbrev Str := List Char

/-- Characters stripped by Python `str.strip()` / split on by `str.split()`
(the ASCII whitespace characters plus the ideographic space). -/
def isPySpace (c : Char) : Bool :=
  c == ' ' || c == '\t' || c == '\n' || c == '\r' ||
  c == '\x0b' || c == '\x0c' || c == '　'

/-- Python slice `l[:i]`: a nonnegative bound keeps the first `i` characters,
a negative bound drops the last `-i` characters (clamped at the ends). -/
def pySliceTo (l : Str) (i : Int) : Str :=
  if 0 ≤ i then l.take i.toNat else l.take (l.length - (-i).toNat)

/-- Python `s.rfind(c)`: the largest index holding `c`, and `-1` if absent. -/
def pyRfind : Str → Char → Int
  | [], _ => -1
  | c' :: rest, c =>
      let r := pyRfind rest c
      if 0 ≤ r then r + 1 else if c' = c then 0 else -1

/-- Python `max` on a (nonempty) list of integers; `0` on `[]` (never used there). -/
def listMaxInt : List Int → Int
  | [] => 0
  | [x] => x
  | x :: xs => max x (listMaxInt xs)

/-- Worker for `pySplit`, accumulating the word currently being read. -/
def pySplitAux : Str → Str → List Str
  | [], cur => if cur = [] then [] else [cur]
  | c :: rest, cur =>
      if isPySpace c then
        if cur = [] then pySplitAux rest [] else cur :: pySplitAux rest []
      else pySplitAux rest (cur ++ [c])

/-- Python `s.split()`: maximal runs of non-whitespace, no empty words. -/
def pySplit (l : Str) : List Str := pySplitAux l []

/-- Python `sep.join(ws)`. -/
def pyJoin (sep : Str) : List Str → Str
  | [] => []
  | [w] => w
  | w :: ws => w ++ sep ++ pyJoin sep ws

/-- Python `s.strip()`: drop leading and trailing whitespace. -/
def pyStrip (l : Str) : Str :=
  ((l.dropWhile isPySpace).reverse.dropWhile isPySpace).reverse

/-- The test `endsWithSet S t` holds when the last character of `t` belongs to `S`
(Python `t.endswith(c)` for each single character `c` in `S`). -/
def endsWithSet (s : List Char) (t : Str) : Bool :=
  match t.getLast? with
  | some c => decide (c ∈ s)
  | none => false

/-- The sentence-terminal characters recognised by the improved variant. -/
def terminalMarks : List Char := ['。', '.', '？', '！', '?', '!']

/-- Source `truncate_to_complete_sentence` of georgia_news_improved.py (lines 305-355):
the sentence collector of its middle fallback, iterating over the characters of
the full text and cutting after each terminal mark, discarding the unterminated
tail.  (`sentences` / `current_sentence` of the source.) -/
def splitSentences : Str → Str → List Str
  | [], _ => []
  | c :: rest, cur =>
      if c ∈ terminalMarks then (cur ++ [c]) :: splitSentences rest []
      else splitSentences rest (cur ++ [c])

/-- The greedy refit of `truncate_to_complete_sentence`: append whole sentences
while the running length stays within the budget, stopping at the first that
does not fit (the `break` of the source loop). -/
def greedyFit : List Str → Int → Str → Str
  | [], _, acc => acc
  | s :: rest, m, acc =>
      if (acc.length + s.length : Int) ≤ m then greedyFit rest m (acc ++ s)
      else acc

/-- Source `truncate_to_complete_sentence(text, max_length)` of
georgia_news_improved.py, lines 305-355.  The budget is an `Int` because the
callers compute it by subtraction (`MAX_TWEET_LENGTH - len(url) - 5`). -/
def truncate_to_complete_sentence (text : Str) (max_length : Int) : Str :=
  if (text.length : Int) ≤ max_length then text
  else
    let truncated := pySliceTo text max_length
    let end_positions :=
      ([pyRfind truncated '。', pyRfind truncated '.', pyRfind truncated '？',
        pyRfind truncated '！', pyRfind truncated '?', pyRfind truncated '!']).filter
        (fun p => decide (0 < p))
    if end_positions ≠ [] then
      pySliceTo text (listMaxInt end_positions + 1)
    else
      let sentences := splitSentences text []
      let result := greedyFit sentences max_length []
      if result ≠ [] then result
      else pyStrip truncated ++ ['。']

/-- Source `truncate_to_complete_sentence` applied to an optional (possibly `None`)
text: the source function starts with `len(text)`, so a `None` argument raises
`TypeError`, modelled as `Except.error`. -/
def truncate_to_complete_sentenceO (text : Option Str) (max_length : Int) :
    Except Unit Str :=
  match text with
  | none => .error ()
  | some t => .ok (truncate_to_complete_sentence t max_length)

/-- Source `ensure_complete_sentences(text, max_length)` of georgia_news_fixed.py,
lines 154-202.  The two `* 0.7` threshold comparisons of the source are
rendered rationally as `10 * x > 7 * max_length`. -/
def ensure_complete_sentences (text : Str) (max_length : Int) : Str :=
  if text = [] then []
  else if (text.length : Int) ≤ max_length then
    if endsWithSet ['。', '.', '？', '！'] text then text else text ++ ['。']
  else
    let truncated := pySliceTo text max_length
    let end_positions :=
      ([pyRfind truncated '。', pyRfind truncated '.', pyRfind truncated '？',
        pyRfind truncated '！']).filter (fun p => decide (0 < p))
    if end_positions ≠ [] then
      pySliceTo text (listMaxInt end_positions + 1)
    else
      let last_comma := pyRfind truncated '、'
      if 10 * last_comma > 7 * max_length then
        pySliceTo text (last_comma + 1) ++ ['。']
      else
        let words := pySplit (pySliceTo text max_length)
        let complete_text := pyJoin [' '] words.dropLast
        if words ≠ [] ∧ 10 * (complete_text.length : Int) > 7 * max_length then
          complete_text ++ ['。']
        else truncated ++ ['。']

/-- Source `ensure_complete_sentences` on an optional text: `if not text: return ""`
accepts `None` as well as the empty string. -/
def ensure_complete_sentencesO (text : Option Str) (max_length : Int) : Str :=
  match text with
  | none => []
  | some t => ensure_complete_sentences t max_length

/-! ## Data model and Novelty Store (strict and improved variants) -/

/-- A candidate article: a title/url pair, as the scrapers build them. -/
structure Article where
  title : Str
  url : Str
deriving DecidableEq

/-- Configuration constants shared by the variants. -/
def MAX_TWEET_LENGTH : Nat := 280

/-- Capacity of the posted-URL and fingerprint lists. -/
def ARTICLES_TO_TRACK : Nat := 50

/-- Minimum number of hours between posts. -/
def MINIMUM_HOURS_BETWEEN_POSTS : Nat := 3

/-- Persisted record of georgia_news_strict.py: keys `posted`,
`content_hashes`, `keywords`, `last_post_time`. -/
structure PostedDataS where
  posted : List Str
  content_hashes : List Str
  keywords : List (Str × Nat)
  last_post_time : Nat
deriving DecidableEq

/-- Persisted record of georgia_news_improved.py (no keyword map). -/
structure PostedDataI where
  posted : List Str
  content_hashes : List Str
  last_post_time : Nat
deriving DecidableEq

/-- State of the strict variant's JSON file on disk. -/
inductive FileS where
  | missing
  | corrupt
  | good (d : PostedDataS)
deriving DecidableEq

/-- State of the improved variant's JSON file on disk. -/
inductive FileI where
  | missing
  | corrupt
  | good (d : PostedDataI)
deriving DecidableEq

/-- The freshly-initialised record of the strict variant. -/
def emptyDataS : PostedDataS := ⟨[], [], [], 0⟩

/-- The freshly-initialised record of the improved variant. -/
def emptyDataI : PostedDataI := ⟨[], [], 0⟩

/-- Source `load_posted_articles` of georgia_news_strict.py (lines 46-76): an existing
file is read back; a missing file yields a fresh record that is immediately
written to disk; a file that fails to read or parse yields a fresh record with
no write (the `except` branch). -/
def load_posted_articlesS : FileS → PostedDataS × FileS
  | .good d => (d, .good d)
  | .missing => (emptyDataS, .good emptyDataS)
  | .corrupt => (emptyDataS, .corrupt)

/-- Source `load_posted_articles` of georgia_news_improved.py (lines 34-62). -/
def load_posted_articlesI : FileI → PostedDataI × FileI
  | .good d => (d, .good d)
  | .missing => (emptyDataI, .good emptyDataI)
  | .corrupt => (emptyDataI, .corrupt)

/-- The capped append of `update_posted_data` (both variants): when the list
already holds `ARTICLES_TO_TRACK` entries, `pop(0)` the oldest before the
`append`. -/
def pushCapped (l : List Str) (x : Str) : List Str :=
  (if ARTICLES_TO_TRACK ≤ l.length then l.drop 1 else l) ++ [x]

/-- Source `get_keywords(title)` of georgia_news_strict.py (lines 32-44): whitespace
words of the title longer than one character and outside the particle
stoplist. -/
def common_words : List Str :=
  ["の", "に", "は", "が", "を", "と", "で", "へ", "から", "より", "や",
   "など", "まで"].map String.toList

/-- Source `get_keywords(title)`: see `common_words`. -/
def get_keywords (title : Str) : List Str :=
  (pySplit title).filter (fun w => decide (1 < w.length) && !(decide (w ∈ common_words)))

/-- Dictionary lookup `posted_data['keywords'].get(kw)` on the assoc-list
model of the keyword-recency map. -/
def lookupKw (m : List (Str × Nat)) (k : Str) : Option Nat :=
  (m.find? (fun p => decide (p.1 = k))).map (·.2)

/-- Dictionary update `posted_data['keywords'][kw] = t`. -/
def setKw (m : List (Str × Nat)) (k : Str) (t : Nat) : List (Str × Nat) :=
  if m.any (fun p => decide (p.1 = k)) then
    m.map (fun p => if p.1 = k then (k, t) else p)
  else m ++ [(k, t)]

/-- Source line `for keyword in get_keywords(title): keywords[keyword] = current_time`. -/
def setKws (m : List (Str × Nat)) (ks : List Str) (t : Nat) : List (Str × Nat) :=
  ks.foldl (fun m k => setKw m k t) m

/-- Source lines `content = get_article_content(url); if not content: content = title` —
the body-fetch with title fallback used by both `is_similar_to_posted` and
`update_posted_data` (a falsy body is `None` or the empty string). -/
def bodyOrTitle (fetch : Str → Option Str) (a : Article) : Str :=
  match fetch a.url with
  | none => a.title
  | some c => if c = [] then a.title else c

/-- The keyword-recency layer of the strict `is_similar_to_posted`
(lines 419-430): some content word of the title was used in a post less than
24 hours before now. -/
def keywordHit (now : Nat) (title : Str) (m : List (Str × Nat)) : Bool :=
  (get_keywords title).any (fun kw =>
    match lookupKw m kw with
    | some last_used => decide (now - last_used < 24 * 60 * 60)
    | none => false)

/-! ## Environments: the external collaborators of each run -/

/-- External collaborators of a georgia_news_strict.py run: environment-variable
presence, the on-disk state file, the clock, the scraped candidate list, the
article-body fetcher, the md5 digest of hashlib, the summarizer and the Twitter
endpoint (`post_to_twitter`, whose internal HTTP handling never raises and
reports a single boolean). -/
structure EnvS where
  varsOk : Bool
  file : FileS
  now : Nat
  articles : List Article
  fetch : Str → Option Str
  hash : Str → Str
  summarize : Str → Option Str → Str
  post : Str → Bool

/-- Outcome of the improved `post_to_twitter` (lines 357-405):
`(True, None)`, `(False, "duplicate")`, `(False, "error")` or `(False, None)`. -/
inductive PostResult where
  | success
  | dup
  | err
  | failNone
deriving DecidableEq

/-- External collaborators of a georgia_news_improved.py run.  `post` takes the
index of the `post_to_twitter` call within the run; `choose` gives the value of
the n-th `random.choice` over the six tweet variations. -/
structure EnvI where
  varsOk : Bool
  file : FileI
  now : Nat
  articles : List Article
  fetch : Str → Option Str
  hash : Str → Str
  summarize : Str → Option Str → Str
  post : Nat → Str → PostResult
  choose : Nat → Fin 6

/-! ## Similarity classifiers and store updates -/

/-- Source `is_similar_to_posted` of georgia_news_strict.py (lines 396-433).  The
second component records whether the article body was fetched (the URL layer
answers before any network call). -/
def is_similar_to_postedS (env : EnvS) (a : Article) (pd : PostedDataS) :
    Bool × Bool :=
  if a.url ∈ pd.posted then (true, false)
  else
    let content := bodyOrTitle env.fetch a
    let content_hash := env.hash content
    if content_hash ∈ pd.content_hashes then (true, true)
    else if keywordHit env.now a.title pd.keywords then (true, true)
    else (false, true)

/-- Source `is_similar_to_posted` of georgia_news_improved.py (lines 407-431): the
same first two layers, with no keyword layer. -/
def is_similar_to_postedI (env : EnvI) (a : Article) (pd : PostedDataI) :
    Bool × Bool :=
  if a.url ∈ pd.posted then (true, false)
  else
    let content := bodyOrTitle env.fetch a
    let content_hash := env.hash content
    if content_hash ∈ pd.content_hashes then (true, true)
    else (false, true)

/-- Source `update_posted_data` of georgia_news_strict.py (lines 435-466), minus the
final `save_posted_articles` call (performed by the caller model). -/
def update_posted_dataS (env : EnvS) (a : Article) (pd : PostedDataS) :
    PostedDataS :=
  let content := bodyOrTitle env.fetch a
  let content_hash := env.hash content
  { posted := pushCapped pd.posted a.url
    content_hashes := pushCapped pd.content_hashes content_hash
    keywords := setKws pd.keywords (get_keywords a.title) env.now
    last_post_time := env.now }

/-- Source `update_posted_data` of georgia_news_improved.py (lines 433-458). -/
def update_posted_dataI (env : EnvI) (a : Article) (pd : PostedDataI) :
    PostedDataI :=
  let content := bodyOrTitle env.fetch a
  let content_hash := env.hash content
  { posted := pushCapped pd.posted a.url
    content_hashes := pushCapped pd.content_hashes content_hash
    last_post_time := env.now }

/-! ## Post composition -/

/-- The two-newline separator between summary and URL. -/
def nnSep : Str := ['\n', '\n']

/-- Tweet assembly of the strict `main` (lines 523-542): raw concatenation,
re-truncated at the last period fitting the budget when over the limit. -/
def buildTweetStrict (summary url : Str) : Str :=
  let tweet := summary ++ nnSep ++ url
  if tweet.length ≤ MAX_TWEET_LENGTH then tweet
  else
    let available : Int := (MAX_TWEET_LENGTH : Int) - url.length - 5
    let pre := pySliceTo summary available
    let summary' :=
      if '。' ∈ pre then pySliceTo summary (pyRfind pre '。' + 1)
      else if '.' ∈ pre then pySliceTo summary (pyRfind pre '.' + 1)
      else pre
    summary' ++ nnSep ++ url

/-- The variation pool of `create_unique_tweet` (lines 483-490). -/
def variations : List Str :=
  ["詳細はリンクから。", "詳しくはこちら。", "続きを読む。", "全文を読む。",
   "詳細記事はこちら。", "詳しい情報はリンクから。"].map String.toList

/-- The sentence-ending test repeated throughout georgia_news_improved.py:
`endswith` on `。`, `.`, `!`, `?`, `！`, `？`. -/
def endsSentence (t : Str) : Bool :=
  endsWithSet ['。', '.', '!', '?', '！', '？'] t

/-- Lines 505-522 of `create_unique_tweet`: force a truncated summary to end
at its last sentence mark (positions `> 0`), else append a period. -/
def fixEnding (ts : Str) : Str :=
  let end_positions :=
    ([pyRfind ts '。', pyRfind ts '.', pyRfind ts '？', pyRfind ts '！',
      pyRfind ts '?', pyRfind ts '!']).filter (fun p => decide (0 < p))
  if end_positions ≠ [] then pySliceTo ts (listMaxInt end_positions + 1)
  else ts ++ ['。']

/-- Source `create_unique_tweet(summary, url, attempt)` of georgia_news_improved.py
(lines 460-527).  `ctr` indexes the `random.choice` calls made so far and is
returned updated; `fuel` bounds the retry-until-fresh-variation recursion of
the source (which Python repeats until `random.choice` picks a variation the
summary does not end with), `Except.error` marking exhaustion. -/
def create_unique_tweet (env : EnvI) (fuel : Nat) (summary url : Str)
    (attempt ctr : Nat) : Except Unit (Str × Nat) :=
  let summary := if endsSentence summary then summary else summary ++ ['。']
  if attempt = 0 then
    let tweet := summary ++ nnSep ++ url
    if tweet.length ≤ MAX_TWEET_LENGTH then .ok (tweet, ctr)
    else
      let max_summary_length : Int := (MAX_TWEET_LENGTH : Int) - url.length - 5
      .ok (truncate_to_complete_sentence summary max_summary_length ++ nnSep ++ url,
           ctr)
  else
    match fuel with
    | 0 => .error ()
    | fuel + 1 =>
      let variation := variations.getD (env.choose ctr).val []
      let ctr := ctr + 1
      if !(variation.isSuffixOf summary) then
        let max_length : Int :=
          (MAX_TWEET_LENGTH : Int) - variation.length - url.length - 5
        let truncated_summary := truncate_to_complete_sentence summary max_length
        let truncated_summary :=
          if endsSentence truncated_summary then truncated_summary
          else fixEnding truncated_summary
        .ok (truncated_summary ++ [' '] ++ variation ++ nnSep ++ url, ctr)
      else
        create_unique_tweet env fuel summary url (attempt + 1) ctr

/-- Fuel given to `create_unique_tweet` by the run model. -/
def CUT_FUEL : Nat := 100

/-- Python `tweet_text.split('\n\n')[0]`: the text before the first blank line. -/
def takeBeforeNN : Str → Str
  | '\n' :: '\n' :: _ => []
  | c :: rest => c :: takeBeforeNN rest
  | [] => []

/-- The double-check of the improved `main` (lines 587-601): re-truncate when
over the limit (rebinding `summary`), then force the summary part to end in a
sentence mark.  Returns the final tweet and the possibly-rebound summary. -/
def doubleCheckI (tweet summary url : Str) : Str × Str :=
  let p :=
    if MAX_TWEET_LENGTH < tweet.length then
      let max_summary_length : Int := (MAX_TWEET_LENGTH : Int) - url.length - 5
      let s := truncate_to_complete_sentence summary max_summary_length
      (s ++ nnSep ++ url, s)
    else (tweet, summary)
  let tweet_lines := takeBeforeNN p.1
  if endsSentence tweet_lines then p
  else ((tweet_lines ++ ['。']) ++ nnSep ++ url, p.2)

/-! ## The publish coordinators (`main` of each variant) -/

/-- Observable outcome of a strict run: final file state, whether the
candidate list was fetched (`get_articles` called), and the texts handed to
`post_to_twitter` in order. -/
structure ResultS where
  file : FileS
  fetchedArticles : Bool
  postedTexts : List Str
deriving DecidableEq

/-- Observable outcome of an improved run.  `diverged` marks the (modelled)
case where `create_unique_tweet` runs out of fuel. -/
structure ResultI where
  file : FileI
  fetchedArticles : Bool
  postedTexts : List Str
  diverged : Bool
deriving DecidableEq

/-- Source `main` of georgia_news_strict.py (lines 468-554): credential check, load,
rate gate, candidate scan (first non-similar wins), refetch-summarize-compose,
single publish attempt, and commit (`update_posted_data` +
`save_posted_articles`) only on success. -/
def runStrict (env : EnvS) : ResultS :=
  if !env.varsOk then ⟨env.file, false, []⟩
  else
    let ld := load_posted_articlesS env.file
    let pd := ld.1
    let f1 := ld.2
    if env.now - pd.last_post_time < MINIMUM_HOURS_BETWEEN_POSTS * 3600 then
      ⟨f1, false, []⟩
    else
      match env.articles with
      | [] => ⟨f1, true, []⟩
      | _ :: _ =>
        match env.articles.find? (fun a => !(is_similar_to_postedS env a pd).1) with
        | none => ⟨f1, true, []⟩
        | some selected =>
          let content := env.fetch selected.url
          let summary := env.summarize selected.title content
          let tweet_text := buildTweetStrict summary selected.url
          if env.post tweet_text then
            ⟨.good (update_posted_dataS env selected pd), true, [tweet_text]⟩
          else ⟨f1, true, [tweet_text]⟩

/-- The duplicate-rejection retry loop of the improved `main`
(lines 618-635), `for attempt in range(1, 4)` with its `for`-`else`.
`left` counts the remaining iterations, `texts` the texts posted so far
(so `texts.length` is the index of the next `post_to_twitter` call). -/
def retryPhase (env : EnvI) (selected : Article) (pd : PostedDataI)
    (summary : Str) (f1 : FileI) (texts : List Str) (ctr attempt : Nat) :
    Nat → ResultI
  | 0 => ⟨f1, true, texts, false⟩
  | left + 1 =>
    match create_unique_tweet env CUT_FUEL summary selected.url attempt ctr with
    | .error _ => ⟨f1, true, texts, true⟩
    | .ok (modified_tweet, ctr') =>
      match env.post texts.length modified_tweet with
      | .success =>
          ⟨.good (update_posted_dataI env selected pd), true,
           texts ++ [modified_tweet], false⟩
      | .dup =>
          retryPhase env selected pd summary f1 (texts ++ [modified_tweet])
            ctr' (attempt + 1) left
      | _ => ⟨f1, true, texts ++ [modified_tweet], false⟩

/-- Source `main` of georgia_news_improved.py (lines 529-637): as the strict `main`,
but composing through `create_unique_tweet`, double-checking the first tweet,
and on duplicate rejection retrying up to three regenerated variants before
giving up. -/
def runImproved (env : EnvI) : ResultI :=
  if !env.varsOk then ⟨env.file, false, [], false⟩
  else
    let ld := load_posted_articlesI env.file
    let pd := ld.1
    let f1 := ld.2
    if env.now - pd.last_post_time < MINIMUM_HOURS_BETWEEN_POSTS * 3600 then
      ⟨f1, false, [], false⟩
    else
      match env.articles with
      | [] => ⟨f1, true, [], false⟩
      | _ :: _ =>
        match env.articles.find? (fun a => !(is_similar_to_postedI env a pd).1) with
        | none => ⟨f1, true, [], false⟩
        | some selected =>
          let content := env.fetch selected.url
          let summary := env.summarize selected.title content
          match create_unique_tweet env CUT_FUEL summary selected.url 0 0 with
          | .error _ => ⟨f1, true, [], true⟩
          | .ok (tweet0, ctr0) =>
            let dc := doubleCheckI tweet0 summary selected.url
            let tweet_text := dc.1
            let summary1 := dc.2
            match env.post 0 tweet_text with
            | .success =>
                ⟨.good (update_posted_dataI env selected pd), true,
                 [tweet_text], false⟩
            | .dup =>
                retryPhase env selected pd summary1 f1 [tweet_text] ctr0 1 3
            | _ => ⟨f1, true, [tweet_text], false⟩

/-! ## Concrete environments used to exercise the runs -/

/-- A concrete candidate article. -/
def artW : Article :=
  ⟨"ジョージアのニュースです。".toList, "https://x/post/a".toList⟩

/-- A concrete pre-existing strict store. -/
def dGoodS : PostedDataS := ⟨["https://x/post/old".toList], ["hh".toList], [], 100⟩

/-- A strict run whose publisher rejects every attempt. -/
def envRefuseS : EnvS :=
  ⟨true, .good dGoodS, 20000, [artW], fun _ => none, id, fun t _ => t,
   fun _ => false⟩

/-- An improved run whose publisher reports duplicate content on every attempt
and whose variation picker always chooses the first variation. -/
def envDupI : EnvI :=
  ⟨true, .good emptyDataI, 20000, [artW], fun _ => none, id, fun t _ => t,
   fun _ _ => .dup, fun _ => 0⟩

/-- A strict store whose last post was 1000 seconds ago. -/
def dGateS : PostedDataS := ⟨[], [], [], 5000⟩

/-- A strict run arriving 1000 seconds after the previous post. -/
def envGateS : EnvS :=
  ⟨true, .good dGateS, 6000, [artW], fun _ => none, id, fun t _ => t,
   fun _ => false⟩

/-- A strict run on a machine with no state file yet. -/
def envMissS : EnvS :=
  ⟨true, .missing, 0, [], fun _ => none, id, fun t _ => t, fun _ => false⟩

/-- A strict store already holding the URL of `artW`. -/
def pdUrlHitS : PostedDataS := ⟨[artW.url], [], [], 0⟩

/-- An improved store already holding the URL of `artW`. -/
def pdUrlHitI : PostedDataI := ⟨[artW.url], [], 0⟩

/-! ## Helper lemmas: Python string primitives -/

theorem length_dropWhile_le' (p : Char → Bool) (l : Str) :
    (l.dropWhile p).length ≤ l.length := by
  induction l with
  | nil => simp [List.dropWhile]
  | cons c rest ih =>
    simp only [List.dropWhile]
    split
    · exact le_trans ih (by simp)
    · simp

theorem pyStrip_length_le (l : Str) : (pyStrip l).length ≤ l.length := by
  unfold pyStrip
  rw [List.length_reverse]
  refine le_trans (length_dropWhile_le' _ _) ?_
  rw [List.length_reverse]
  exact length_dropWhile_le' _ _

theorem pySliceTo_nonneg (l : Str) {i : Int} (h : 0 ≤ i) :
    pySliceTo l i = l.take i.toNat := by
  unfold pySliceTo
  rw [if_pos h]

theorem pySliceTo_length_le (l : Str) (i : Int) :
    (pySliceTo l i).length ≤ l.length := by
  unfold pySliceTo
  split <;> exact List.length_take_le' _ _

theorem pySliceTo_length_le_toNat (l : Str) {i : Int} (h : 0 ≤ i) :
    (pySliceTo l i).length ≤ i.toNat := by
  rw [pySliceTo_nonneg l h]
  exact List.length_take_le _ _

theorem pySliceTo_natCast_length_le (l : Str) (N : Nat) :
    (pySliceTo l (N : Int)).length ≤ N := by
  have := pySliceTo_length_le_toNat l (i := (N : Int)) (by positivity)
  simpa using this

theorem pyRfind_lt_length (l : Str) (c : Char) : pyRfind l c < (l.length : Int) := by
  induction l with
  | nil => simp [pyRfind]
  | cons c' rest ih =>
    simp only [pyRfind, List.length_cons]
    split_ifs with h1 h2
    · push_cast
      omega
    · push_cast
      positivity
    · push_cast
      omega

theorem pyRfind_getElem (l : Str) (c : Char) (h : 0 ≤ pyRfind l c) :
    l[(pyRfind l c).toNat]? = some c := by
  induction l with
  | nil => simp [pyRfind] at h
  | cons c' rest ih =>
    simp only [pyRfind] at h ⊢
    split_ifs at h ⊢ with h1 h2
    · have h3 : (pyRfind rest c + 1).toNat = (pyRfind rest c).toNat + 1 := by omega
      rw [h3]
      simpa using ih h1
    · subst h2
      simp
    · omega

theorem listMaxInt_mem (l : List Int) (h : l ≠ []) : listMaxInt l ∈ l := by
  match l with
  | [x] => simp [listMaxInt]
  | x :: y :: xs =>
    have ih := listMaxInt_mem (y :: xs) (by simp)
    simp only [listMaxInt]
    rcases le_total x (listMaxInt (y :: xs)) with h1 | h1
    · rw [max_eq_right h1]
      exact List.mem_cons_of_mem _ ih
    · rw [max_eq_left h1]
      exact List.mem_cons_self _ _

theorem endsWithSet_iff (S : List Char) (t : Str) :
    endsWithSet S t = true ↔ ∃ c, t.getLast? = some c ∧ c ∈ S := by
  unfold endsWithSet
  cases h : t.getLast? <;> simp

theorem endsWithSet_concat (S : List Char) (l : Str) {c : Char} (hc : c ∈ S) :
    endsWithSet S (l ++ [c]) = true := by
  rw [endsWithSet_iff]
  exact ⟨c, List.getLast?_concat l, hc⟩

theorem greedyFit_length (sl : List Str) (m : Int) (acc : Str)
    (h : (acc.length : Int) ≤ m) : ((greedyFit sl m acc).length : Int) ≤ m := by
  induction sl generalizing acc with
  | nil => simpa [greedyFit]
  | cons s rest ih =>
    simp only [greedyFit]
    split
    · rename_i hg
      refine ih _ ?_
      rw [List.length_append]
      push_cast
      exact hg
    · exact h

theorem greedyFit_ends (sl : List Str) (m : Int) (acc : Str)
    (hs : ∀ s ∈ sl, ∃ c ∈ terminalMarks, s.getLast? = some c)
    (ha : acc = [] ∨ ∃ c ∈ terminalMarks, acc.getLast? = some c) :
    greedyFit sl m acc = [] ∨
      ∃ c ∈ terminalMarks, (greedyFit sl m acc).getLast? = some c := by
  induction sl generalizing acc with
  | nil => simpa [greedyFit]
  | cons s rest ih =>
    simp only [greedyFit]
    split
    · refine ih (acc ++ s) (fun s' hs' => hs s' (List.mem_cons_of_mem _ hs')) ?_
      obtain ⟨c, hc, hlast⟩ := hs s (List.mem_cons_self _ _)
      right
      exact ⟨c, hc, by rw [List.getLast?_append, hlast]; rfl⟩
    · exact ha

theorem splitSentences_ends (l : Str) :
    ∀ (cur : Str), ∀ s ∈ splitSentences l cur,
      ∃ c ∈ terminalMarks, s.getLast? = some c := by
  induction l with
  | nil =>
    intro cur s hs
    simp [splitSentences] at hs
  | cons c rest ih =>
    intro cur s hs
    simp only [splitSentences] at hs
    split at hs
    · rename_i hmem
      rcases List.mem_cons.mp hs with rfl | hs'
      · exact ⟨c, hmem, List.getLast?_concat _⟩
      · exact ih [] s hs'
    · exact ih _ s hs

theorem pyJoin_cons_ne (sep w : Str) {ws : List Str} (h : ws ≠ []) :
    pyJoin sep (w :: ws) = w ++ sep ++ pyJoin sep ws := by
  cases ws with
  | nil => simp at h
  | cons x xs => rfl

theorem pyJoin_dropLast_length_le (sep : Str) :
    ∀ ws : List Str, (pyJoin sep ws.dropLast).length ≤ (pyJoin sep ws).length := by
  intro ws
  induction ws with
  | nil => simp
  | cons w ws ih =>
    cases ws with
    | nil => simp [pyJoin]
    | cons x xs =>
      cases xs with
      | nil =>
        simp [pyJoin, List.length_append]
      | cons y ys =>
        have h1 : (w :: x :: y :: ys).dropLast = w :: (x :: y :: ys).dropLast := rfl
        have h2 : (x :: y :: ys).dropLast ≠ [] := by
          simp [List.dropLast]
        rw [h1, pyJoin_cons_ne sep w h2, pyJoin_cons_ne sep w (by simp)]
        simp only [List.length_append]
        omega

theorem pySplitAux_join_le (l : Str) : ∀ cur : Str,
    (pyJoin [' '] (pySplitAux l cur)).length ≤ cur.length + l.length := by
  induction l with
  | nil =>
    intro cur
    simp only [pySplitAux]
    split
    · simp [pyJoin]
    · simp [pyJoin]
  | cons c rest ih =>
    intro cur
    simp only [pySplitAux]
    split_ifs with h1 h2
    · have := ih []
      simp only [List.length_nil, List.length_cons, Nat.zero_add] at this ⊢
      omega
    · cases hS : pySplitAux rest [] with
      | nil =>
        simp only [pyJoin]
        omega
      | cons s ss =>
        rw [pyJoin_cons_ne _ _ (by simp)]
        have hrec := ih []
        rw [hS] at hrec
        simp only [List.length_append, List.length_cons, List.length_nil,
          Nat.zero_add, List.length_singleton] at hrec ⊢
        omega
    · have := ih (cur ++ [c])
      simp only [List.length_append, List.length_cons, List.length_nil,
        List.length_singleton] at this ⊢
      omega

theorem pySplit_join_le (l : Str) :
    (pyJoin [' '] (pySplit l)).length ≤ l.length := by
  simpa using pySplitAux_join_le l []

theorem mem_rfind_filter6 {tr : Str} {p : Int}
    (h : p ∈ ([pyRfind tr '。', pyRfind tr '.', pyRfind tr '？', pyRfind tr '！',
      pyRfind tr '?', pyRfind tr '!'].filter (fun q => decide (0 < q)))) :
    0 < p ∧ ∃ c ∈ terminalMarks, pyRfind tr c = p := by
  rw [List.mem_filter] at h
  obtain ⟨hm, hp⟩ := h
  refine ⟨by simpa using hp, ?_⟩
  simp only [List.mem_cons, List.not_mem_nil, or_false] at hm
  rcases hm with h | h | h | h | h | h <;> subst h
  exacts [⟨'。', by decide, rfl⟩, ⟨'.', by decide, rfl⟩, ⟨'？', by decide, rfl⟩,
    ⟨'！', by decide, rfl⟩, ⟨'?', by decide, rfl⟩, ⟨'!', by decide, rfl⟩]

theorem mem_rfind_filter4 {tr : Str} {p : Int}
    (h : p ∈ ([pyRfind tr '。', pyRfind tr '.', pyRfind tr '？',
      pyRfind tr '！'].filter (fun q => decide (0 < q)))) :
    0 < p ∧ ∃ c ∈ (['。', '.', '？', '！'] : List Char), pyRfind tr c = p := by
  rw [List.mem_filter] at h
  obtain ⟨hm, hp⟩ := h
  refine ⟨by simpa using hp, ?_⟩
  simp only [List.mem_cons, List.not_mem_nil, or_false] at hm
  rcases hm with h | h | h | h <;> subst h
  exacts [⟨'。', by decide, rfl⟩, ⟨'.', by decide, rfl⟩, ⟨'？', by decide, rfl⟩,
    ⟨'！', by decide, rfl⟩]

theorem slice_succ_length_le (t : Str) (N : Nat) {p : Int} (hpos : 0 < p)
    (hlt : p < ((pySliceTo t (N : Int)).length : Int)) :
    (pySliceTo t (p + 1)).length ≤ N := by
  rw [pySliceTo_nonneg _ (by omega : (0 : Int) ≤ p + 1)]
  have h1 : (pySliceTo t (N : Int)).length ≤ N := pySliceTo_natCast_length_le t N
  have h2 : (p + 1).toNat ≤ N := by omega
  exact le_trans (List.length_take_le _ _) h2

theorem slice_at_rfind_ends (t : Str) (n : Nat) {p : Int} {c : Char}
    (hp : pyRfind (t.take n) c = p) (hpos : 0 ≤ p) :
    (pySliceTo t (p + 1)).getLast? = some c := by
  have hlt : p < ((t.take n).length : Int) := hp ▸ pyRfind_lt_length _ _
  have hget : (t.take n)[p.toNat]? = some c := by
    have h0 : 0 ≤ pyRfind (t.take n) c := by rw [hp]; exact hpos
    have := pyRfind_getElem (t.take n) c h0
    rwa [hp] at this
  have hlen : p.toNat < (t.take n).length := by omega
  have hmin : (t.take n).length = min n t.length := List.length_take n t
  have hn : p.toNat < n := by omega
  have hget2 : t[p.toNat]? = some c := by
    rwa [List.getElem?_take_of_lt hn] at hget
  have htlen : p.toNat < t.length := by omega
  rw [pySliceTo_nonneg _ (by omega : (0 : Int) ≤ p + 1)]
  have h4 : (p + 1).toNat = p.toNat + 1 := by omega
  rw [h4, List.getLast?_eq_getElem?]
  have h5 : (t.take (p.toNat + 1)).length = p.toNat + 1 := by
    rw [List.length_take]
    omega
  rw [h5]
  simp only [Nat.add_sub_cancel]
  rw [List.getElem?_take_of_lt (Nat.lt_succ_self _)]
  exact hget2

theorem truncate_length_le (t : Str) (N : Nat) :
    (truncate_to_complete_sentence t (N : Int)).length ≤ N + 1 := by
  simp only [truncate_to_complete_sentence]
  split_ifs with h1 h2 h3
  · have : t.length ≤ N := by exact_mod_cast h1
    omega
  · have hm := listMaxInt_mem _ h2
    obtain ⟨hpos, c, hcmem, hrfl⟩ := mem_rfind_filter6 hm
    have hlt := hrfl ▸ pyRfind_lt_length (pySliceTo t (N : Int)) c
    have := slice_succ_length_le t N hpos hlt
    omega
  · have hg := greedyFit_length (splitSentences t []) (N : Int) [] (by simp)
    have : (greedyFit (splitSentences t []) (N : Int) []).length ≤ N := by
      exact_mod_cast hg
    omega
  · rw [List.length_append]
    have h4 := pyStrip_length_le (pySliceTo t (N : Int))
    have h5 := pySliceTo_natCast_length_le t N
    simp only [List.length_singleton]
    omega

theorem truncate_ends (t : Str) (N : Nat) (h : N < t.length) :
    endsWithSet terminalMarks (truncate_to_complete_sentence t (N : Int)) = true := by
  simp only [truncate_to_complete_sentence]
  split_ifs with h1 h2 h3
  · exfalso
    have : t.length ≤ N := by exact_mod_cast h1
    omega
  · have htake : pySliceTo t (N : Int) = t.take (N : Int).toNat :=
      pySliceTo_nonneg t (by positivity)
    rw [htake] at h2 ⊢
    have hm := listMaxInt_mem _ h2
    obtain ⟨hpos, c, hcmem, hrfl⟩ := mem_rfind_filter6 hm
    have hend := slice_at_rfind_ends t (N : Int).toNat hrfl (by omega)
    rw [endsWithSet_iff]
    exact ⟨c, hend, hcmem⟩
  · have hg := greedyFit_ends (splitSentences t []) (N : Int) []
      (splitSentences_ends t []) (Or.inl rfl)
    rcases hg with hnil | ⟨c, hc, hlast⟩
    · exact absurd hnil h3
    · rw [endsWithSet_iff]
      exact ⟨c, hlast, hc⟩
  · exact endsWithSet_concat _ _ (by decide)

theorem ensure_length_le (t : Str) (N : Nat) :
    (ensure_complete_sentences t (N : Int)).length ≤ N + 1 := by
  simp only [ensure_complete_sentences]
  split_ifs with h0 h1 h2 h3 h4 h5
  · simp
  · have : t.length ≤ N := by exact_mod_cast h1
    omega
  · rw [List.length_append]
    have : t.length ≤ N := by exact_mod_cast h1
    simp only [List.length_singleton]
    omega
  · have hm := listMaxInt_mem _ h3
    obtain ⟨hpos, c, hcmem, hrfl⟩ := mem_rfind_filter4 hm
    have hlt := hrfl ▸ pyRfind_lt_length (pySliceTo t (N : Int)) c
    have := slice_succ_length_le t N hpos hlt
    omega
  · rw [List.length_append]
    have hpos : 0 < pyRfind (pySliceTo t (N : Int)) '、' := by
      by_contra hc
      push_neg at hc
      have : (0 : Int) ≤ 7 * (N : Int) := by positivity
      omega
    have hlt := pyRfind_lt_length (pySliceTo t (N : Int)) '、'
    have := slice_succ_length_le t N hpos hlt
    simp only [List.length_singleton]
    omega
  · rw [List.length_append]
    have hj := pyJoin_dropLast_length_le [' '] (pySplit (pySliceTo t (N : Int)))
    have hs := pySplit_join_le (pySliceTo t (N : Int))
    have hN := pySliceTo_natCast_length_le t N
    simp only [List.length_singleton]
    omega
  · rw [List.length_append]
    have hN := pySliceTo_natCast_length_le t N
    simp only [List.length_singleton]
    omega

theorem ensure_ends (t : Str) (N : Nat) (h : t ≠ []) :
    endsWithSet terminalMarks (ensure_complete_sentences t (N : Int)) = true := by
  simp only [ensure_complete_sentences]
  split_ifs with h0 h1 h2 h3 h4 h5
  · exact absurd h0 h
  · rw [endsWithSet_iff] at h2 ⊢
    obtain ⟨c, hlast, hc⟩ := h2
    refine ⟨c, hlast, ?_⟩
    have hsub : (['。', '.', '？', '！'] : List Char) ⊆ terminalMarks := by decide
    exact hsub hc
  · exact endsWithSet_concat _ _ (by decide)
  · have htake : pySliceTo t (N : Int) = t.take (N : Int).toNat :=
      pySliceTo_nonneg t (by positivity)
    rw [htake] at h3 ⊢
    have hm := listMaxInt_mem _ h3
    obtain ⟨hpos, c, hcmem, hrfl⟩ := mem_rfind_filter4 hm
    have hend := slice_at_rfind_ends t (N : Int).toNat hrfl (by omega)
    rw [endsWithSet_iff]
    have hsub : (['。', '.', '？', '！'] : List Char) ⊆ terminalMarks := by decide
    exact ⟨c, hend, hsub hcmem⟩
  · exact endsWithSet_concat _ _ (by decide)
  · exact endsWithSet_concat _ _ (by decide)
  · exact endsWithSet_concat _ _ (by decide)

theorem keywordHit_iff (now : Nat) (title : Str) (m : List (Str × Nat)) :
    keywordHit now title m = true ↔
      ∃ kw ∈ get_keywords title, ∃ lastUsed,
        lookupKw m kw = some lastUsed ∧ now - lastUsed < 24 * 60 * 60 := by
  unfold keywordHit
  rw [List.any_eq_true]
  constructor
  · rintro ⟨kw, hkw, hmatch⟩
    refine ⟨kw, hkw, ?_⟩
    cases hl : lookupKw m kw with
    | none => rw [hl] at hmatch; simp at hmatch
    | some lastUsed =>
      rw [hl] at hmatch
      exact ⟨lastUsed, rfl, by simpa using hmatch⟩
  · rintro ⟨kw, hkw, lastUsed, hl, hlt⟩
    exact ⟨kw, hkw, by rw [hl]; simpa⟩

theorem retryPhase_file_no_success (env : EnvI) (sel : Article) (pd : PostedDataI)
    (summary : Str) (f1 : FileI) (hpost : ∀ n t, env.post n t ≠ .success) :
    ∀ (left : Nat) (texts : List Str) (ctr attempt : Nat),
      (retryPhase env sel pd summary f1 texts ctr attempt left).file = f1 := by
  intro left
  induction left with
  | zero => intro texts ctr attempt; rfl
  | succ left ih =>
    intro texts ctr attempt
    simp only [retryPhase]
    split
    · rfl
    · split
      · rename_i hp
        exact absurd hp (hpost _ _)
      · exact ih _ _ _
      · rfl

theorem retryPhase_texts_le (env : EnvI) (sel : Article) (pd : PostedDataI)
    (summary : Str) (f1 : FileI) :
    ∀ (left : Nat) (texts : List Str) (ctr attempt : Nat),
      (retryPhase env sel pd summary f1 texts ctr attempt left).postedTexts.length ≤
        texts.length + left := by
  intro left
  induction left with
  | zero => intro texts ctr attempt; simp [retryPhase]
  | succ left ih =>
    intro texts ctr attempt
    simp only [retryPhase]
    split
    · simp
    · split
      · simp
      · refine le_trans (ih _ _ _) ?_
        simp
        omega
      · simp

theorem runStrict_file_no_success (env : EnvS) (d : PostedDataS)
    (hf : env.file = .good d) (hpost : ∀ t, env.post t = false) :
    (runStrict env).file = .good d := by
  simp only [runStrict, hf, load_posted_articlesS]
  split
  · rfl
  · split
    · rfl
    · split
      · rfl
      · split
        · rfl
        · rw [hpost]
          rfl

theorem runImproved_file_no_success (env : EnvI) (d : PostedDataI)
    (hf : env.file = .good d) (hpost : ∀ n t, env.post n t ≠ .success) :
    (runImproved env).file = .good d := by
  simp only [runImproved, hf, load_posted_articlesI]
  split
  · rfl
  · split
    · rfl
    · split
      · rfl
      · split
        · rfl
        · split
          · rfl
          · split
            · rename_i hp
              exact absurd hp (hpost _ _)
            · exact retryPhase_file_no_success env _ _ _ _ hpost 3 _ _ _
            · rfl

theorem pushCapped_length_le (l : List Str) (x : Str)
    (h : l.length ≤ ARTICLES_TO_TRACK) :
    (pushCapped l x).length ≤ ARTICLES_TO_TRACK := by
  unfold pushCapped
  rw [List.length_append]
  split_ifs with h1
  · simp only [List.length_drop, List.length_singleton]
    simp only [ARTICLES_TO_TRACK] at *
    omega
  · simp only [List.length_singleton]
    simp only [ARTICLES_TO_TRACK] at *
    omega

theorem pushCapped_at_capacity (l : List Str) (x : Str)
    (h : l.length = ARTICLES_TO_TRACK) :
    pushCapped l x = l.drop 1 ++ [x] := by
  unfold pushCapped
  rw [if_pos (le_of_eq h.symm)]

theorem foldl_pushCapped_of_le (us : List Str) :
    ∀ l : List Str, l.length + us.length ≤ ARTICLES_TO_TRACK →
      us.foldl pushCapped l = l ++ us := by
  induction us with
  | nil => intro l h; simp
  | cons x rest ih =>
    intro l h
    simp only [List.foldl_cons]
    have h1 : pushCapped l x = l ++ [x] := by
      unfold pushCapped
      rw [if_neg]
      simp only [ARTICLES_TO_TRACK] at h ⊢
      simp only [List.length_cons] at h
      omega
    rw [h1, ih (l ++ [x]) (by simp at h ⊢; omega)]
    simp

theorem foldl_pushCapped_full (us : List Str)
    (h : us.length = ARTICLES_TO_TRACK + 1) :
    us.foldl pushCapped [] = us.drop 1 := by
  have hne : us ≠ [] := by
    intro h0
    rw [h0] at h
    simp [ARTICLES_TO_TRACK] at h
  obtain ⟨front, lastx, rfl⟩ : ∃ front lastx, us = front ++ [lastx] :=
    ⟨us.dropLast, us.getLast hne, (List.dropLast_append_getLast hne).symm⟩
  have hfl : front.length = ARTICLES_TO_TRACK := by
    simp only [List.length_append, List.length_singleton] at h
    omega
  rw [List.foldl_append]
  rw [foldl_pushCapped_of_le front [] (by simpa using hfl.le)]
  simp only [List.nil_append, List.foldl_cons, List.foldl_nil]
  rw [pushCapped_at_capacity front lastx hfl]
  exact (List.drop_append_of_le_length (by rw [hfl]; simp [ARTICLES_TO_TRACK])).symm

/-! ## Claims -/

/-- C1: if the publisher never returns success during a run (every attempt is
rejected as duplicate, fails otherwise, or raises — all reported as a
non-success outcome by `post_to_twitter`), the persisted novelty store after
the run is identical to the store before the run: `update_posted_data` and
`save_posted_articles` run only after a successful publish attempt. -/
theorem no_speculative_commit :
    (∀ (env : EnvS) (d : PostedDataS), env.file = .good d →
      (∀ t, env.post t = false) → (runStrict env).file = .good d) ∧
    (∀ (env : EnvI) (d : PostedDataI), env.file = .good d →
      (∀ n t, env.post n t ≠ .success) → (runImproved env).file = .good d) :=
  ⟨runStrict_file_no_success, runImproved_file_no_success⟩

/-- Witness for C1 at concrete refusing/duplicate-rejecting publishers. -/
theorem no_speculative_commit_witness :
    (runStrict envRefuseS).file = .good dGoodS ∧
    (runImproved envDupI).file = .good emptyDataI :=
  ⟨no_speculative_commit.1 envRefuseS dGoodS rfl (fun _ => rfl),
   no_speculative_commit.2 envDupI emptyDataI rfl (fun _ _ => by simp [envDupI])⟩

/-- C2 fails as stated: the hard-truncation fallback appends a terminal mark
after cutting at the full budget, producing a string one character over it. -/
theorem truncate_budget_counterexample :
    (truncate_to_complete_sentence "aaaa".toList 3).length = 4 ∧
    ¬(truncate_to_complete_sentence "aaaa".toList 3).length ≤ 3 := by decide

/-- C2 amended: both truncators stay within the budget plus one character;
the overshoot can only come from the appended terminal mark. -/
theorem truncate_budget_plus_one : ∀ (t : Str) (N : Nat),
    (truncate_to_complete_sentence t (N : Int)).length ≤ N + 1 ∧
    (ensure_complete_sentences t (N : Int)).length ≤ N + 1 :=
  fun t N => ⟨truncate_length_le t N, ensure_length_le t N⟩

/-- C3 fails as stated: the improved truncator returns already-short text
unchanged even when it does not end with a terminal mark. -/
theorem truncate_terminal_counterexample :
    truncate_to_complete_sentence "abc".toList 10 = "abc".toList ∧
    "abc".toList ≠ [] ∧
    endsWithSet terminalMarks (truncate_to_complete_sentence "abc".toList 10) =
      false := by decide

/-- C3 amended: `ensure_complete_sentences` ends every non-empty result with a
terminal mark; `truncate_to_complete_sentence` guarantees this only for input
over the budget. -/
theorem truncate_terminal_amended : ∀ (t : Str) (N : Nat),
    (t ≠ [] →
      endsWithSet terminalMarks (ensure_complete_sentences t (N : Int)) = true) ∧
    (N < t.length →
      endsWithSet terminalMarks (truncate_to_complete_sentence t (N : Int)) = true) :=
  fun t N => ⟨ensure_ends t N, truncate_ends t N⟩

/-- Witness for the amended C3 on a concrete over-budget text. -/
theorem truncate_terminal_amended_witness :
    endsWithSet terminalMarks
      (ensure_complete_sentences "aaaa".toList ((3 : Nat) : Int)) = true ∧
    endsWithSet terminalMarks
      (truncate_to_complete_sentence "aaaa".toList ((3 : Nat) : Int)) = true :=
  ⟨(truncate_terminal_amended "aaaa".toList 3).1 (by decide),
   (truncate_terminal_amended "aaaa".toList 3).2 (by decide)⟩

/-- C4: the posted-URL and fingerprint lists never exceed
`ARTICLES_TO_TRACK = 50`; at capacity the oldest entry (index 0) is removed
before appending, so 51 insertions into an empty store keep exactly the most
recent 50 in insertion order. -/
theorem fifo_eviction :
    (∀ (l : List Str) (x : Str), l.length ≤ ARTICLES_TO_TRACK →
      (pushCapped l x).length ≤ ARTICLES_TO_TRACK) ∧
    (∀ (l : List Str) (x : Str), l.length = ARTICLES_TO_TRACK →
      pushCapped l x = l.drop 1 ++ [x]) ∧
    (∀ us : List Str, us.length = ARTICLES_TO_TRACK + 1 → us.Nodup →
      us.foldl pushCapped [] = us.drop 1) ∧
    (∀ (env : EnvS) (a : Article) (pd : PostedDataS),
      pd.posted.length ≤ ARTICLES_TO_TRACK →
      pd.content_hashes.length ≤ ARTICLES_TO_TRACK →
      (update_posted_dataS env a pd).posted.length ≤ ARTICLES_TO_TRACK ∧
      (update_posted_dataS env a pd).content_hashes.length ≤ ARTICLES_TO_TRACK) ∧
    (∀ (env : EnvI) (a : Article) (pd : PostedDataI),
      pd.posted.length ≤ ARTICLES_TO_TRACK →
      pd.content_hashes.length ≤ ARTICLES_TO_TRACK →
      (update_posted_dataI env a pd).posted.length ≤ ARTICLES_TO_TRACK ∧
      (update_posted_dataI env a pd).content_hashes.length ≤ ARTICLES_TO_TRACK) := by
  refine ⟨pushCapped_length_le, pushCapped_at_capacity,
    fun us h _ => foldl_pushCapped_full us h, ?_, ?_⟩
  · intro env a pd h1 h2
    exact ⟨pushCapped_length_le _ _ h1, pushCapped_length_le _ _ h2⟩
  · intro env a pd h1 h2
    exact ⟨pushCapped_length_le _ _ h1, pushCapped_length_le _ _ h2⟩

/-- Witness for C4, including a concrete 51-element distinct insertion. -/
theorem fifo_eviction_witness :
    (pushCapped [['a']] ['b']).length ≤ ARTICLES_TO_TRACK ∧
    pushCapped (List.replicate 50 ['a']) ['b'] =
      (List.replicate 50 ['a']).drop 1 ++ [['b']] ∧
    ((List.range 51).map (fun n => List.replicate n 'a')).foldl pushCapped [] =
      ((List.range 51).map (fun n => List.replicate n 'a')).drop 1 ∧
    (update_posted_dataS envRefuseS artW dGoodS).posted.length ≤
      ARTICLES_TO_TRACK ∧
    (update_posted_dataI envDupI artW emptyDataI).posted.length ≤
      ARTICLES_TO_TRACK :=
  ⟨fifo_eviction.1 _ _ (by decide),
   fifo_eviction.2.1 _ _ (by decide),
   fifo_eviction.2.2.1 _ (by decide) (by decide),
   (fifo_eviction.2.2.2.1 envRefuseS artW dGoodS (by decide) (by decide)).1,
   (fifo_eviction.2.2.2.2 envDupI artW emptyDataI (by decide) (by decide)).1⟩

/-- C5: when less than the three-hour minimum interval has elapsed since the
last post, the strict run stops at the rate check: the candidate list is not
fetched, no publish call is made, and the store on disk is untouched. -/
theorem rate_gate_skip (env : EnvS) (d : PostedDataS) (hf : env.file = .good d)
    (hgate : env.now - d.last_post_time < MINIMUM_HOURS_BETWEEN_POSTS * 3600) :
    runStrict env = ⟨.good d, false, []⟩ := by
  simp only [runStrict, hf, load_posted_articlesS]
  split <;> rfl

/-- Witness for C5: a run 1000 seconds after the previous post. -/
theorem rate_gate_skip_witness :
    runStrict envGateS = ⟨.good dGateS, false, []⟩ :=
  rate_gate_skip envGateS dGateS rfl (by decide)

/-- C6: the similarity classifiers apply their layers in a fixed short-circuit
order — exact URL match (with no content fetch), then content hash of the
fetched body (title fallback), then in the strict variant keyword recency
within 24 hours — and return false exactly when no layer fires. -/
theorem similarity_decision_order :
    ∀ (env : EnvS) (envI : EnvI) (a : Article) (pd : PostedDataS)
      (pdI : PostedDataI),
      (a.url ∈ pd.posted → is_similar_to_postedS env a pd = (true, false)) ∧
      (a.url ∉ pd.posted → (is_similar_to_postedS env a pd).2 = true) ∧
      (a.url ∉ pd.posted →
        env.hash (bodyOrTitle env.fetch a) ∈ pd.content_hashes →
        (is_similar_to_postedS env a pd).1 = true) ∧
      (a.url ∉ pd.posted →
        env.hash (bodyOrTitle env.fetch a) ∉ pd.content_hashes →
        (is_similar_to_postedS env a pd).1 =
          keywordHit env.now a.title pd.keywords) ∧
      ((is_similar_to_postedS env a pd).1 = false ↔
        a.url ∉ pd.posted ∧
        env.hash (bodyOrTitle env.fetch a) ∉ pd.content_hashes ∧
        keywordHit env.now a.title pd.keywords = false) ∧
      (keywordHit env.now a.title pd.keywords = true ↔
        ∃ kw ∈ get_keywords a.title, ∃ lastUsed,
          lookupKw pd.keywords kw = some lastUsed ∧
          env.now - lastUsed < 24 * 60 * 60) ∧
      (a.url ∈ pdI.posted → is_similar_to_postedI envI a pdI = (true, false)) ∧
      (a.url ∉ pdI.posted → (is_similar_to_postedI envI a pdI).2 = true) ∧
      (a.url ∉ pdI.posted →
        envI.hash (bodyOrTitle envI.fetch a) ∈ pdI.content_hashes →
        (is_similar_to_postedI envI a pdI).1 = true) ∧
      ((is_similar_to_postedI envI a pdI).1 = false ↔
        a.url ∉ pdI.posted ∧
        envI.hash (bodyOrTitle envI.fetch a) ∉ pdI.content_hashes) := by
  intro env envI a pd pdI
  refine ⟨?_, ?_, ?_, ?_, ?_, keywordHit_iff _ _ _, ?_, ?_, ?_, ?_⟩
  · intro h
    simp [is_similar_to_postedS, h]
  · intro h
    simp only [is_similar_to_postedS, if_neg h]
    split_ifs <;> rfl
  · intro h hh
    simp [is_similar_to_postedS, h, hh]
  · intro h hh
    simp only [is_similar_to_postedS, if_neg h, if_neg hh]
    cases hkw : keywordHit env.now a.title pd.keywords <;> simp [hkw]
  · simp only [is_similar_to_postedS]
    split_ifs with h1 h2 h3 <;> simp_all
  · intro h
    simp [is_similar_to_postedI, h]
  · intro h
    simp only [is_similar_to_postedI, if_neg h]
    split_ifs <;> rfl
  · intro h hh
    simp [is_similar_to_postedI, h, hh]
  · simp only [is_similar_to_postedI]
    split_ifs with h1 h2 <;> simp_all

/-- Witness for C6 at concrete stores with and without the candidate URL. -/
theorem similarity_decision_order_witness :
    is_similar_to_postedS envRefuseS artW pdUrlHitS = (true, false) ∧
    (is_similar_to_postedS envRefuseS artW dGoodS).2 = true ∧
    (is_similar_to_postedS envRefuseS artW dGoodS).1 =
      keywordHit envRefuseS.now artW.title dGoodS.keywords ∧
    is_similar_to_postedI envDupI artW pdUrlHitI = (true, false) :=
  ⟨(similarity_decision_order envRefuseS envDupI artW pdUrlHitS pdUrlHitI).1
      (by decide),
   (similarity_decision_order envRefuseS envDupI artW dGoodS pdUrlHitI).2.1
      (by decide),
   (similarity_decision_order envRefuseS envDupI artW dGoodS pdUrlHitI).2.2.2.1
      (by decide) (by decide),
   (similarity_decision_order envRefuseS envDupI artW pdUrlHitS
      pdUrlHitI).2.2.2.2.2.2.1 (by decide)⟩

/-- C7 fails as stated: with the publisher rejecting every attempt as
duplicate and `random.choice` repeatedly picking the same variation, the
second and third regenerated tweets are character-identical to the first
retry — the coordinator does not guarantee materially different text on every
retry (it does give up after the third rejected variant, store unchanged). -/
theorem duplicate_retry_counterexample :
    (runImproved envDupI).postedTexts =
      ["ジョージアのニュースです。\n\nhttps://x/post/a".toList,
       "ジョージアのニュースです。 詳細はリンクから。\n\nhttps://x/post/a".toList,
       "ジョージアのニュースです。 詳細はリンクから。\n\nhttps://x/post/a".toList,
       "ジョージアのニュースです。 詳細はリンクから。\n\nhttps://x/post/a".toList] ∧
    (runImproved envDupI).postedTexts[1]? = (runImproved envDupI).postedTexts[2]? ∧
    (runImproved envDupI).file = .good emptyDataI := by decide

/-- C7 amended: on duplicate rejection the coordinator posts at most four
texts in a run (the original plus at most three regenerated variants) and,
when every attempt is rejected as duplicate, gives up with the store
unchanged; the regenerated text is not guaranteed to differ from the
previous retry. -/
theorem duplicate_retry_bounded :
    (∀ env : EnvI, (runImproved env).postedTexts.length ≤ 4) ∧
    (∀ (env : EnvI) (d : PostedDataI), env.file = .good d →
      (∀ n t, env.post n t = .dup) → (runImproved env).file = .good d) := by
  constructor
  · intro env
    simp only [runImproved]
    split
    · simp
    · split
      · simp
      · split
        · simp
        · split
          · simp
          · split
            · simp
            · split
              · simp
              · exact le_trans (retryPhase_texts_le env _ _ _ _ 3 _ _ _)
                  (by simp)
              · simp
  · intro env d hf hpost
    exact runImproved_file_no_success env d hf (fun n t => by rw [hpost]; decide)

/-- Witness for the amended C7 under the always-duplicate publisher. -/
theorem duplicate_retry_bounded_witness :
    (runImproved envDupI).postedTexts.length ≤ 4 ∧
    (runImproved envDupI).file = .good emptyDataI :=
  ⟨duplicate_retry_bounded.1 envDupI,
   duplicate_retry_bounded.2 envDupI emptyDataI rfl (fun _ _ => rfl)⟩

/-- C8 fails as stated: text within budget ending in a half-width `?` (a
sentence-terminal mark) is not returned unchanged by the fixed variant, which
appends `。`. -/
theorem truncate_idempotent_counterexample :
    ensure_complete_sentences "abc?".toList 10 = "abc?。".toList ∧
    ("abc?".toList).length ≤ 10 ∧
    endsWithSet terminalMarks "abc?".toList = true ∧
    ensure_complete_sentences "abc?".toList 10 ≠ "abc?".toList := by decide

/-- C8 amended: the improved truncator is the identity on any text within the
budget; the fixed variant is the identity on within-budget text only when it
ends in one of `。`, `.`, `？`, `！` (half-width `?`/`!` get `。` appended). -/
theorem truncate_idempotent_amended : ∀ (t : Str) (N : Nat),
    (t.length ≤ N → truncate_to_complete_sentence t (N : Int) = t) ∧
    (t.length ≤ N → endsWithSet ['。', '.', '？', '！'] t = true →
      ensure_complete_sentences t (N : Int) = t) := by
  intro t N
  constructor
  · intro h
    simp only [truncate_to_complete_sentence]
    rw [if_pos (by exact_mod_cast h : ((t.length : Int) ≤ (N : Int)))]
  · intro h he
    simp only [ensure_complete_sentences]
    by_cases h0 : t = []
    · simp [h0]
    · rw [if_neg h0,
        if_pos (by exact_mod_cast h : ((t.length : Int) ≤ (N : Int))),
        if_pos he]

/-- Witness for the amended C8 on short terminated text. -/
theorem truncate_idempotent_amended_witness :
    truncate_to_complete_sentence "あ。".toList ((5 : Nat) : Int) = "あ。".toList ∧
    ensure_complete_sentences "あ。".toList ((5 : Nat) : Int) = "あ。".toList :=
  ⟨(truncate_idempotent_amended "あ。".toList 5).1 (by decide),
   (truncate_idempotent_amended "あ。".toList 5).2 (by decide) (by decide)⟩

/-- C9 fails as stated: the improved truncator starts with `len(text)`, so a
`None` argument raises `TypeError` rather than returning the empty string. -/
theorem truncate_none_counterexample :
    truncate_to_complete_sentenceO none 10 = Except.error () := rfl

/-- C9 amended: empty input yields the empty string in both variants for every
budget; `None` input yields the empty string in the fixed variant but raises
in the improved one. -/
theorem truncate_empty_none_amended : ∀ N : Nat,
    ensure_complete_sentencesO none (N : Int) = [] ∧
    ensure_complete_sentences [] (N : Int) = [] ∧
    truncate_to_complete_sentence [] (N : Int) = [] ∧
    truncate_to_complete_sentenceO (some []) (N : Int) = Except.ok [] ∧
    truncate_to_complete_sentenceO none (N : Int) = Except.error () := by
  intro N
  refine ⟨rfl, ?_, ?_, ?_, rfl⟩
  · simp [ensure_complete_sentences]
  · simp [truncate_to_complete_sentence]
  · simp [truncate_to_complete_sentenceO, truncate_to_complete_sentence]

/-- C10: loading with no state file on disk returns the fresh empty record
(`posted = []`, `content_hashes = []`, an empty keyword map, `last_post_time = 0`)
and writes it to disk as a side effect — so a run that publishes nothing still
changes on-disk state on its first invocation — while a read or parse failure
returns the same fresh record without writing. -/
theorem load_missing_creates_store :
    load_posted_articlesS .missing = (emptyDataS, .good emptyDataS) ∧
    (∀ d, load_posted_articlesS (.good d) = (d, .good d)) ∧
    load_posted_articlesS .corrupt = (emptyDataS, .corrupt) ∧
    emptyDataS = ⟨[], [], [], 0⟩ ∧
    envMissS.file = .missing ∧
    (∀ t, envMissS.post t = false) ∧
    runStrict envMissS = ⟨.good emptyDataS, false, []⟩ := by
  refine ⟨rfl, fun d => rfl, rfl, rfl, rfl, fun t => rfl, ?_⟩
  decide
